import Mathlib

/-!
Shallow embedding of the parser-combinator library in `src/Parser.h` and
`src/unnamed/part_000` (the `prs` namespace of the C++ repository).

Modelling conventions:
* A C++ `std::string` is a `List Char`; a position is a `Nat` (the spec's
  data model fixes positions as non-negative integer offsets, and every
  runtime position of the library is non-negative).
* `ParseResult<T>` is `PRes α`: the success flag, the position, and the
  `std::optional<T>` payload.
* Reading `string[i]` follows C++ semantics: for `i < length` it yields the
  character, for `i = length` it yields the null terminator (defined
  behaviour for `std::string::operator[]`), and for `i > length` it is
  undefined behaviour, modelled as the error `CppErr.outOfBounds`.
* A thrown exception (`std::stoi` on a string with no digits or an
  out-of-int-range value, `std::optional::value()` on an empty optional) is
  modelled as the error `CppErr.exn`.
* A parser is `ParserFun α : List Char → Nat → Except CppErr (PRes α)`.
  The C++ lambdas receive a `StringState` and test `state.success`, but
  `Parser<T>::operator()` always seeds `success = true` and every
  combinator invokes its sub-parsers through `operator()`, so the
  `!state.success` early-out branches are unreachable and the flag is not
  part of the embedded input.
* The `while (true)` loop of `Many` need not terminate (its sub-parser is
  arbitrary), so it is embedded with explicit fuel: `manyFuel fuel …`
  returns `none` when the loop has not finished within `fuel` iterations;
  the C++ loop diverges exactly when the result is `none` for every fuel.
-/

deriving instance DecidableEq for Except

namespace PrsEmbed

/-- The abnormal outcomes of running the C++ code: an out-of-bounds read
(undefined behaviour) or a thrown exception. -/
inductive CppErr where
  | outOfBounds
  | exn
deriving DecidableEq, Repr

/-- `ParseResult<T>`: a `StringState` (success flag and position) together
with the `std::optional<T>` payload. -/
structure PRes (α : Type) where
  success : Bool
  position : Nat
  result : Option α
deriving DecidableEq, Repr

abbrev Res (α : Type) := Except CppErr (PRes α)

/-- The function wrapped by `Parser<T>`, invoked through `operator()`. -/
abbrev ParserFun (α : Type) := List Char → Nat → Res α

/-- `prs::Success`: a successful result at the given position. -/
def SuccessR (position : Nat) (r : α) : PRes α := ⟨true, position, some r⟩

/-- `prs::Fail`: a failed result at the given position, with no payload. -/
def FailR (position : Nat) : PRes α := ⟨false, position, none⟩

/-- `ParseResult::GetResult`, i.e. `std::optional::value()`: throws when the
payload is absent. -/
def GetResultM (r : PRes α) : Except CppErr α :=
  match r.result with
  | some v => .ok v
  | none => .error .exn

/-- The null character written by `std::string` after its last element. -/
def nullChar : Char := Char.ofNat 0

/-- C++ `string[i]`: the character for `i < length`, the null terminator for
`i = length`, undefined behaviour past that. -/
def charAt (s : List Char) (i : Nat) : Except CppErr Char :=
  if h : i < s.length then .ok (s.get ⟨i, h⟩)
  else if i = s.length then .ok nullChar
  else .error .outOfBounds

/-- `string.substr(start, count)` as used by the library (always called with
`start ≤ length` there). -/
def substrC (s : List Char) (start count : Nat) : List Char :=
  (s.drop start).take count

/-- The character test of `letter`: `(c >= 'a' && c <= 'z') || (c >= 'A' && c <= 'Z')`. -/
def isLetterC (c : Char) : Bool := ('a' ≤ c && c ≤ 'z') || ('A' ≤ c && c ≤ 'Z')

/-- The character test of `digit`: `c >= '0' && c <= '9'`. -/
def isDigitC (c : Char) : Bool := '0' ≤ c && c ≤ '9'

/-- The character test of `whitespace`: `c == ' ' || c == '\n' || c == '\t'`. -/
def isWsC (c : Char) : Bool := c == ' ' || c == '\n' || c == '\t'

/-- The character test of `alphanumeric`: the letter ranges or the digit range. -/
def isAlnumC (c : Char) : Bool :=
  ('a' ≤ c && c ≤ 'z') || ('A' ≤ c && c ≤ 'Z') || ('0' ≤ c && c ≤ '9')

/-- `prs::any`: guarded by `state.position < string.length()`, consumes one
character. -/
def any : ParserFun Char := fun s pos =>
  if h : pos < s.length then .ok (SuccessR (pos + 1) (s.get ⟨pos, h⟩))
  else .ok (FailR pos)

/-- `prs::letter`: reads `string[state.position]` with no bounds check, then
tests the letter ranges. -/
def letter : ParserFun Char := fun s pos =>
  match charAt s pos with
  | .error e => .error e
  | .ok c => if isLetterC c then .ok (SuccessR (pos + 1) c) else .ok (FailR pos)

/-- `prs::digit`: reads `string[state.position]` with no bounds check, then
tests the digit range. -/
def digit : ParserFun Char := fun s pos =>
  match charAt s pos with
  | .error e => .error e
  | .ok c => if isDigitC c then .ok (SuccessR (pos + 1) c) else .ok (FailR pos)

/-- `prs::whitespace`: reads `string[state.position]` with no bounds check. -/
def whitespace : ParserFun Char := fun s pos =>
  match charAt s pos with
  | .error e => .error e
  | .ok c => if isWsC c then .ok (SuccessR (pos + 1) c) else .ok (FailR pos)

/-- `prs::alphanumeric`: reads `string[state.position]` with no bounds check. -/
def alphanumeric : ParserFun Char := fun s pos =>
  match charAt s pos with
  | .error e => .error e
  | .ok c => if isAlnumC c then .ok (SuccessR (pos + 1) c) else .ok (FailR pos)

/-- `prs::Char(character)`: compares `string[state.position]` (unchecked
read) with `character` and returns `character` on success. -/
def CharP (character : Char) : ParserFun Char := fun s pos =>
  match charAt s pos with
  | .error e => .error e
  | .ok c =>
    if c = character then .ok (SuccessR (pos + 1) character) else .ok (FailR pos)

/-- The loop of `prs::String`: for each pattern index `i`, evaluate
`string[state.position + i] != pattern[i]` first (the unchecked read) and
only then `state.position + i >= string.length()`; either test being true
fails the parse. Returns whether the whole pattern matched. -/
def stringLoop (s : List Char) (pos : Nat) : List Char → Nat → Except CppErr Bool
  | [], _ => .ok true
  | p :: ps, i =>
    match charAt s (pos + i) with
    | .error e => .error e
    | .ok c =>
      if c ≠ p then .ok false
      else if pos + i ≥ s.length then .ok false
      else stringLoop s pos ps (i + 1)

/-- `prs::String(pattern)`: on a full match, succeeds at
`state.position + pattern.length()` with the pattern as value. -/
def StringP (pattern : List Char) : ParserFun (List Char) := fun s pos =>
  match stringLoop s pos pattern 0 with
  | .error e => .error e
  | .ok true => .ok (SuccessR (pos + pattern.length) pattern)
  | .ok false => .ok (FailR pos)

/-- `charAt` only answers `ok` at positions up to the length. -/
theorem charAt_ok_le {s : List Char} {i : Nat} {c : Char}
    (h : charAt s i = .ok c) : i ≤ s.length := by
  unfold charAt at h
  split at h
  · omega
  · split at h
    · omega
    · exact absurd h (by simp)

/-- Structural core of `classLoop`, walking the characters that remain from
the current position. The `[]` case is the read at `position = length`: it
yields the null terminator; if that character passes the test, the loop
advances and the next unchecked read is past the terminator, the
out-of-bounds error. -/
def classAux (f : Char → Bool) : List Char → Nat → Except CppErr Nat
  | [], pos => if f nullChar then .error .outOfBounds else .ok pos
  | c :: rest, pos => if f c then classAux f rest (pos + 1) else .ok pos

/-- The shared `while` loop of `whitespaces`, `letters`, `digits`,
`alphanumerics` and of `integer`'s digit run: starting from the current
position, read `string[position]` (unchecked) and advance while the
character satisfies the class test; return the final position. A starting
position past the terminator is already an out-of-bounds read. -/
def classLoop (f : Char → Bool) (s : List Char) (pos : Nat) : Except CppErr Nat :=
  if pos ≤ s.length then classAux f (s.drop pos) pos
  else .error .outOfBounds

/-- `prs::whitespaces`: consume the run of whitespace characters and return
the consumed substring; never fails. -/
def whitespaces : ParserFun (List Char) := fun s pos =>
  match classLoop isWsC s pos with
  | .error e => .error e
  | .ok position => .ok (SuccessR position (substrC s pos (position - pos)))

/-- `prs::letters`: consume the run of letters and return the consumed
substring; never fails. -/
def letters : ParserFun (List Char) := fun s pos =>
  match classLoop isLetterC s pos with
  | .error e => .error e
  | .ok position => .ok (SuccessR position (substrC s pos (position - pos)))

/-- `prs::digits`: consume the run of digits and return the consumed
substring; never fails. -/
def digits : ParserFun (List Char) := fun s pos =>
  match classLoop isDigitC s pos with
  | .error e => .error e
  | .ok position => .ok (SuccessR position (substrC s pos (position - pos)))

/-- `prs::alphanumerics`: consume the run of alphanumeric characters and
return the consumed substring; never fails. -/
def alphanumerics : ParserFun (List Char) := fun s pos =>
  match classLoop isAlnumC s pos with
  | .error e => .error e
  | .ok position => .ok (SuccessR position (substrC s pos (position - pos)))

/-- `prs::Void`: the unit result type of parsers with no meaningful value. -/
inductive VoidR where
  | mk
deriving DecidableEq, Repr

/-- `Parser<T>::operator|`: map the value of a successful result through
`function`; on failure return `Fail(state.position)`, the position at which
this invocation started. -/
def mapP (p : ParserFun α) (function : α → β) : ParserFun β := fun s pos =>
  match p s pos with
  | .error e => .error e
  | .ok r =>
    if r.success then
      match GetResultM r with
      | .error e => .error e
      | .ok v => .ok (SuccessR r.position (function v))
    else .ok (FailR pos)

/-- `Parser<T>::operator~` (discard): keep success and position, drop the
value; on failure return `Fail(state.position)`. -/
def discardP (p : ParserFun α) : ParserFun VoidR := fun s pos =>
  match p s pos with
  | .error e => .error e
  | .ok r =>
    if r.success then .ok (SuccessR r.position VoidR.mk)
    else .ok (FailR pos)

/-- `operator>>(Parser<T1>, Parser<T2>)`: run `first`, then `second` at the
first result's position; both values are paired; either failure yields
`Fail(state.position)`, the original starting position. -/
def thenPairP (first : ParserFun α) (second : ParserFun β) :
    ParserFun (α × β) := fun s pos =>
  match first s pos with
  | .error e => .error e
  | .ok firstResult =>
    if firstResult.success then
      match second s firstResult.position with
      | .error e => .error e
      | .ok secondResult =>
        if secondResult.success then
          match GetResultM firstResult, GetResultM secondResult with
          | .ok a, .ok b => .ok (SuccessR secondResult.position (a, b))
          | _, _ => .error .exn
        else .ok (FailR pos)
    else .ok (FailR pos)

/-- `operator>>(Parser<T>, Parser<Void>)`: sequence keeping the first value. -/
def thenKeepFirstP (first : ParserFun α) (second : ParserFun VoidR) :
    ParserFun α := fun s pos =>
  match first s pos with
  | .error e => .error e
  | .ok firstResult =>
    if firstResult.success then
      match second s firstResult.position with
      | .error e => .error e
      | .ok secondResult =>
        if secondResult.success then
          match GetResultM firstResult with
          | .ok a => .ok (SuccessR secondResult.position a)
          | .error e => .error e
        else .ok (FailR pos)
    else .ok (FailR pos)

/-- `operator>>(Parser<Void>, Parser<T>)`: sequence keeping the second value. -/
def thenKeepSecondP (first : ParserFun VoidR) (second : ParserFun α) :
    ParserFun α := fun s pos =>
  match first s pos with
  | .error e => .error e
  | .ok firstResult =>
    if firstResult.success then
      match second s firstResult.position with
      | .error e => .error e
      | .ok secondResult =>
        if secondResult.success then
          match GetResultM secondResult with
          | .ok b => .ok (SuccessR secondResult.position b)
          | .error e => .error e
        else .ok (FailR pos)
    else .ok (FailR pos)

/-- `operator>>(Parser<Void>, Parser<Void>)`: sequence of two value-less
parsers. -/
def thenVoidP (first second : ParserFun VoidR) : ParserFun VoidR := fun s pos =>
  match first s pos with
  | .error e => .error e
  | .ok firstResult =>
    if firstResult.success then
      match second s firstResult.position with
      | .error e => .error e
      | .ok secondResult =>
        if secondResult.success then .ok (SuccessR secondResult.position VoidR.mk)
        else .ok (FailR pos)
    else .ok (FailR pos)

/-- `operator||`: return the first branch's result if it succeeds, else the
second branch's result if that succeeds, else `Fail(state.position)`. -/
def orP (first second : ParserFun α) : ParserFun α := fun s pos =>
  match first s pos with
  | .error e => .error e
  | .ok firstResult =>
    if firstResult.success then .ok firstResult
    else
      match second s pos with
      | .error e => .error e
      | .ok secondResult =>
        if secondResult.success then .ok secondResult
        else .ok (FailR pos)

/-- `prs::Try(parser, failResult)`: the parser's result on success, else a
success carrying `failResult` at the original position. -/
def TryP (p : ParserFun α) (failResult : α) : ParserFun α := fun s pos =>
  match p s pos with
  | .error e => .error e
  | .ok r =>
    if r.success then .ok r
    else .ok (SuccessR pos failResult)

/-- `prs::Not(parser)`: fail at the original position if the parser
succeeds; succeed at `state.position + 1` if it fails. -/
def NotP (p : ParserFun α) : ParserFun VoidR := fun s pos =>
  match p s pos with
  | .error e => .error e
  | .ok r =>
    if r.success then .ok (FailR pos)
    else .ok (SuccessR (pos + 1) VoidR.mk)

/-- The `while (true)` loop of `prs::Many`, with explicit fuel: break with a
success when `position == string.length()`; otherwise run the sub-parser,
appending the value and moving to its position on success, or break with a
success at the current position on failure. `none` means the loop has not
finished within `fuel` iterations; the C++ loop diverges exactly when the
result is `none` for every fuel. -/
def manyLoop (p : ParserFun α) (s : List Char) :
    Nat → Nat → List α → Option (Res (List α))
  | 0, _, _ => none
  | fuel + 1, position, results =>
    if position = s.length then some (.ok (SuccessR position results))
    else
      match p s position with
      | .error e => some (.error e)
      | .ok tempResult =>
        if tempResult.success then
          match GetResultM tempResult with
          | .error e => some (.error e)
          | .ok v => manyLoop p s fuel tempResult.position (results ++ [v])
        else some (.ok (SuccessR position results))

/-- `prs::Many(parser)` run with the given fuel. -/
def manyFuel (fuel : Nat) (p : ParserFun α) (s : List Char) (pos : Nat) :
    Option (Res (List α)) :=
  manyLoop p s fuel pos []

/-- The C++ `Many(parser)` invocation diverges at this input: no amount of
fuel finishes the loop. -/
def manyDiverges (p : ParserFun α) (s : List Char) (pos : Nat) : Prop :=
  ∀ fuel, manyFuel fuel p s pos = none

/-- `prs::AtLeast(count, parser)`: run `Many(parser)`, read its result
(`GetResult`), succeed with it at Many's position if it has at least
`count` elements, else fail at the original position. -/
def atLeastFuel (fuel : Nat) (count : Nat) (p : ParserFun α) (s : List Char)
    (pos : Nat) : Option (Res (List α)) :=
  match manyFuel fuel p s pos with
  | none => none
  | some (.error e) => some (.error e)
  | some (.ok ms) =>
    match GetResultM ms with
    | .error e => some (.error e)
    | .ok result =>
      if result.length ≥ count then some (.ok (SuccessR ms.position result))
      else some (.ok (FailR pos))

/-- `prs::Between(min, max, parser)`: run `Many(parser)` to exhaustion, then
accept its full result only when `min <= size && size <= max`, else fail at
the original position. -/
def betweenFuel (fuel : Nat) (mn mx : Nat) (p : ParserFun α) (s : List Char)
    (pos : Nat) : Option (Res (List α)) :=
  match manyFuel fuel p s pos with
  | none => none
  | some (.error e) => some (.error e)
  | some (.ok ms) =>
    match GetResultM ms with
    | .error e => some (.error e)
    | .ok result =>
      if result.length ≥ mn ∧ result.length ≤ mx then
        some (.ok (SuccessR ms.position result))
      else some (.ok (FailR pos))

/-- The inner loop of the list form of `prs::AnyOf`: try each parser in
order at the starting position and return the first success. -/
def anyOfLoop (s : List Char) (pos : Nat) : List (ParserFun α) → Res α
  | [] => .ok (FailR pos)
  | p :: rest =>
    match p s pos with
    | .error e => .error e
    | .ok result =>
      if result.success then .ok result
      else anyOfLoop s pos rest

/-- `prs::AnyOf(parsers)` (list form): only tries the parsers when
`state.position < string.length()`; otherwise, or when all fail, fails at
the starting position. -/
def AnyOfL (parsers : List (ParserFun α)) : ParserFun α := fun s pos =>
  if pos < s.length then anyOfLoop s pos parsers
  else .ok (FailR pos)

/-- `prs::AnyOf(characters)` (character-set form): when in bounds, compare
`string[state.position]` against each character of the set in order and
succeed at `position + 1` with the matching set character; else fail. -/
def AnyOfC (characters : List Char) : ParserFun Char := fun s pos =>
  if h : pos < s.length then
    match characters.find? (fun ch => s.get ⟨pos, h⟩ == ch) with
    | some ch => .ok (SuccessR (pos + 1) ch)
    | none => .ok (FailR pos)
  else .ok (FailR pos)

/-- `prs::word`: `whitespaces >> letters` (the pair-producing sequence, as
`operator>>` binds tighter than `operator|` in C++) mapped to the pair's
second component, so the skipped whitespace is not part of the value. -/
def word : ParserFun (List Char) :=
  mapP (thenPairP whitespaces letters) (fun pair => pair.2)

/-- The numeric value of a digit run, as accumulated by `strtol`. -/
def digitsToNat (ds : List Char) : Nat :=
  ds.foldl (fun a c => a * 10 + (c.toNat - Char.toNat '0')) 0

/-- The character test of C++ `isspace` in the default locale. -/
def isSpaceCpp (c : Char) : Bool :=
  c == ' ' || c == '\t' || c == '\n' || c == '\x0b' || c == '\x0c' || c == '\x0d'

/-- `std::stoi` on the text after an optional sign: throws
`std::invalid_argument` when no digit follows, `std::out_of_range` when the
converted value does not fit in a 32-bit `int`. -/
def stoiCore (t : List Char) (sign : Int) : Except CppErr Int :=
  let ds := t.takeWhile isDigitC
  if ds.isEmpty then .error .exn
  else
    let v : Int := sign * (digitsToNat ds : Int)
    if v < -(2 ^ 31) ∨ v > 2 ^ 31 - 1 then .error .exn
    else .ok v

/-- `std::stoi`: skip leading whitespace, read an optional sign, then
convert the digit run. -/
def stoiM (str : List Char) : Except CppErr Int :=
  match str.dropWhile isSpaceCpp with
  | '-' :: rest => stoiCore rest (-1)
  | '+' :: rest => stoiCore rest 1
  | t => stoiCore t 1

/-- `prs::integer`: read `string[position]` (unchecked) and step over a
leading minus sign; read the next two characters (unchecked) and fail at the
original position on a redundant leading zero; consume the digit run; call
`std::stoi` on the substring from the original position to the end of the
run. -/
def integer : ParserFun Int := fun s pos =>
  match charAt s pos with
  | .error e => .error e
  | .ok c =>
    let position := if c = '-' then pos + 1 else pos
    match charAt s position with
    | .error e => .error e
    | .ok c1 =>
      match charAt s (position + 1) with
      | .error e => .error e
      | .ok c2 =>
        if c1 = '0' ∧ '0' ≤ c2 ∧ c2 ≤ '9' then .ok (FailR pos)
        else
          match classLoop isDigitC s position with
          | .error e => .error e
          | .ok endPos =>
            let count := endPos - pos
            match stoiM (substrC s pos count) with
            | .error e => .error e
            | .ok result => .ok (SuccessR endPos result)

/-! ### General lemmas about the embedded operations -/

@[simp] theorem SuccessR_success (position : Nat) (v : α) :
    (SuccessR position v).success = true := rfl

@[simp] theorem SuccessR_position (position : Nat) (v : α) :
    (SuccessR position v).position = position := rfl

@[simp] theorem SuccessR_result (position : Nat) (v : α) :
    (SuccessR position v).result = some v := rfl

@[simp] theorem FailR_success (position : Nat) :
    (FailR (α := α) position).success = false := rfl

@[simp] theorem FailR_position (position : Nat) :
    (FailR (α := α) position).position = position := rfl

@[simp] theorem GetResultM_SuccessR (position : Nat) (v : α) :
    GetResultM (SuccessR position v) = .ok v := rfl

theorem classAux_le {f : Char → Bool} :
    ∀ {l : List Char} {pos e : Nat}, classAux f l pos = .ok e → pos ≤ e := by
  intro l
  induction l with
  | nil =>
    intro pos e h
    unfold classAux at h
    split at h
    · exact absurd h (by simp)
    · simp at h
      omega
  | cons c rest ih =>
    intro pos e h
    unfold classAux at h
    split at h
    · have := ih h
      omega
    · simp at h
      omega

theorem classAux_ok {f : Char → Bool} (hf : f nullChar = false) :
    ∀ (l : List Char) (pos : Nat),
      ∃ e, classAux f l pos = .ok e ∧ pos ≤ e ∧ e ≤ pos + l.length := by
  intro l
  induction l with
  | nil =>
    intro pos
    refine ⟨pos, ?_, le_refl _, by simp⟩
    unfold classAux
    rw [hf]
    simp
  | cons c rest ih =>
    intro pos
    unfold classAux
    by_cases hc : f c
    · obtain ⟨e, he, h1, h2⟩ := ih (pos + 1)
      refine ⟨e, ?_, by omega, by simp; omega⟩
      rw [hc]
      simpa using he
    · refine ⟨pos, ?_, le_refl _, by simp⟩
      simp [hc]

theorem classLoop_le {f : Char → Bool} {s : List Char} {pos e : Nat}
    (h : classLoop f s pos = .ok e) : pos ≤ e := by
  unfold classLoop at h
  split at h
  · exact classAux_le h
  · exact absurd h (by simp)

theorem classLoop_ok {f : Char → Bool} (hf : f nullChar = false)
    (s : List Char) (pos : Nat) (hpos : pos ≤ s.length) :
    ∃ e, classLoop f s pos = .ok e ∧ pos ≤ e ∧ e ≤ s.length := by
  obtain ⟨e, he, h1, h2⟩ := classAux_ok hf (s.drop pos) pos
  refine ⟨e, ?_, h1, ?_⟩
  · unfold classLoop
    rw [if_pos hpos]
    exact he
  · have : (s.drop pos).length = s.length - pos := by simp
    omega

/-! ### C1 -/

/-- C1: refuted — on input `"abc"` at position 0 no digit is present, the
matched substring handed to `std::stoi` is empty, and `std::stoi` throws
`std::invalid_argument`: `integer` transfers control by an exception
instead of returning a failed `ParseResult`. -/
theorem c1_integer_throws : integer ['a', 'b', 'c'] 0 = .error CppErr.exn := by
  decide

/-! ### C2 -/

/-- C2: refuted — `letter` reads `string[state.position]` without any bounds
check; invoked on the empty input at position 1 (a position past the end,
reachable for example after `Not(any)` succeeded at position 1) the read is
out of bounds, undefined behaviour instead of a normal failure result. -/
theorem c2_letter_unchecked_read : letter [] 1 = .error CppErr.outOfBounds := by
  decide

/-! ### C4 -/

/-- C4: refuted — `Between(0, 1, digit)` on `"12"` at position 0: the inner
unbounded `Many` collects both digits, the post-hoc length check
`size <= max` then rejects the two-element sequence, and the whole parse
fails at position 0. The claim requires collection to stop after
`max = 1` matches and the parse to succeed with one digit at position 1. -/
theorem c4_between_post_hoc :
    betweenFuel 3 0 1 digit ['1', '2'] 0 = some (.ok (FailR 0)) := by
  decide

/-! ### C3 -/

theorem manyLoop_try_diverges :
    ∀ (fuel : Nat) (acc : List Char),
      manyLoop (TryP (CharP 'x') 'd') ['a'] fuel 0 acc = none := by
  intro fuel
  induction fuel with
  | zero => intro acc; rfl
  | succ n ih =>
    intro acc
    unfold manyLoop
    have hstep : TryP (CharP 'x') 'd' ['a'] 0 = .ok (SuccessR 0 'd') := by decide
    rw [hstep]
    simp only [List.length_cons, List.length_nil, SuccessR, GetResultM]
    simp only [if_neg (by omega : ¬(0 = 0 + 1))]
    exact ih (acc ++ ['d'])

/-- C3: refuted — `Many(Try(Char('x'), 'd'))` on input `"a"` at position 0
never terminates: the sub-parser succeeds at position 0 without advancing
(`Try` turns the failing `Char('x')` into a zero-width success), so the
`while` loop of `Many` repeats forever; no amount of fuel finishes it. -/
theorem c3_many_diverges : manyDiverges (TryP (CharP 'x') 'd') ['a'] 0 :=
  fun fuel => manyLoop_try_diverges fuel []

theorem manyLoop_total {α : Type} {p : ParserFun α} {s : List Char}
    (hp : ∀ q r, p s q = .ok r → r.success = true →
      q < r.position ∧ r.position ≤ s.length) :
    ∀ (n pos : Nat) (acc : List α), pos ≤ s.length → s.length + 1 - pos ≤ n →
      ∃ r, manyLoop p s n pos acc = some r := by
  intro n
  induction n with
  | zero => intro pos acc h1 h2; omega
  | succ n ih =>
    intro pos acc h1 h2
    unfold manyLoop
    by_cases he : pos = s.length
    · rw [if_pos he]
      exact ⟨_, rfl⟩
    · rw [if_neg he]
      cases hr : p s pos with
      | error e => exact ⟨_, rfl⟩
      | ok r =>
        dsimp only
        by_cases hs : r.success = true
        · obtain ⟨hlt, hle⟩ := hp pos r hr hs
          rw [if_pos hs]
          cases hv : GetResultM r with
          | error e => exact ⟨_, rfl⟩
          | ok v => exact ih r.position (acc ++ [v]) hle (by omega)
        · rw [if_neg hs]
          exact ⟨_, rfl⟩

/-- C3 amended: `Many(P)` terminates (fuel `length - pos + 1` finishes the
loop) for every starting position within the input and every sub-parser `P`
whose successes strictly advance the position without moving past the end
of the input; termination fails in general for sub-parsers with zero-width
successes, as `c3_many_diverges` shows. -/
theorem c3_many_terminates (α : Type) (p : ParserFun α) (s : List Char) (pos : Nat)
    (hp : ∀ q r, p s q = .ok r → r.success = true →
      q < r.position ∧ r.position ≤ s.length)
    (hpos : pos ≤ s.length) :
    ∃ r, manyFuel (s.length + 1 - pos) p s pos = some r :=
  manyLoop_total hp (s.length + 1 - pos) pos [] hpos (le_refl _)

theorem any_progress :
    ∀ q r, any ['a'] q = .ok r → r.success = true →
      q < r.position ∧ r.position ≤ (['a'] : List Char).length := by
  intro q r h hs
  unfold any at h
  split at h
  · rename_i hq
    simp only [Except.ok.injEq] at h
    subst h
    simp only [List.length_cons, List.length_nil] at hq ⊢
    constructor
    · simp [SuccessR]
    · simp [SuccessR]
      omega
  · simp only [Except.ok.injEq] at h
    subst h
    simp [FailR] at hs

/-- Concrete instance of `c3_many_terminates`: `Many(any)` on `"a"` at
position 0 finishes within fuel 2. -/
theorem c3_witness :
    ∃ r, manyFuel ((['a'] : List Char).length + 1 - 0) any ['a'] 0 = some r :=
  c3_many_terminates Char any ['a'] 0 any_progress (by decide)

/-! ### C5 -/

/-- C5: what `AtLeastOne(P)` was meant to be — the behaviour of
`AtLeast(1, P)`: the full `Many` sequence at Many's position when it has at
least one element, failure at the original position otherwise. The source's
`AtLeastOne` itself calls `AtLeast(parser, 1)`, swapping the `(count,
parser)` parameter order of `AtLeast`, so its body does not type-check when
instantiated and cannot exhibit this behaviour. -/
theorem c5_atLeast_one_behaviour (α : Type) (fuel : Nat) (p : ParserFun α)
    (s : List Char) (pos : Nat) (m : PRes (List α)) (l : List α)
    (hm : manyFuel fuel p s pos = some (.ok m)) (hl : m.result = some l) :
    atLeastFuel fuel 1 p s pos =
      some (.ok (if 1 ≤ l.length then SuccessR m.position l else FailR pos)) := by
  unfold atLeastFuel
  rw [hm]
  dsimp only
  unfold GetResultM
  rw [hl]
  dsimp only
  by_cases h : 1 ≤ l.length <;> simp [h]

/-- Concrete instance of `c5_atLeast_one_behaviour`: `AtLeast(1, digit)` on
`"5"` succeeds with the one collected digit at position 1. -/
theorem c5_witness :
    atLeastFuel 3 1 digit ['5'] 0 =
      some (.ok (if 1 ≤ (['5'] : List Char).length then SuccessR 1 ['5']
        else FailR 0)) :=
  c5_atLeast_one_behaviour Char 3 digit ['5'] 0 (SuccessR 1 ['5']) ['5']
    (by decide) rfl

/-! ### C6 -/

/-- A parser value admitted by the public `Parser<T>` constructor (which
accepts any callable of the right shape) that reports its failure at
position 99 instead of at the position where the attempt began. -/
def failAt99 : ParserFun Char := fun _ _ => .ok (FailR 99)

/-- C6: refuted — mapping builds `Fail(state.position)`, the position at
which the mapped parser was invoked, not the sub-parser's reported failure
position: a parser failing at position 99 when run at position 0 yields a
mapped parser failing at position 0, not 99. -/
theorem c6_map_original_position :
    failAt99 [] 0 = .ok (FailR 99) ∧
    mapP failAt99 (fun c => c) [] 0 = .ok (FailR 0) ∧
    mapP failAt99 (fun c => c) [] 0 ≠ .ok (FailR 99) := by
  decide

/-- C6 amended: when `P` fails, `(P | f)` fails at the original starting
position `pos` — for every transform `f`, which is therefore never invoked;
this coincides with `P`'s failure position for every parser that reports
failure where its attempt began, as all parsers of this library do. When
`P` succeeds with value `v` at position `r.position`, `(P | f)` succeeds
with `f v` there. -/
theorem c6_map_amended (α β : Type) (p : ParserFun α) (function : α → β)
    (s : List Char) (pos : Nat) (r : PRes α) (h : p s pos = .ok r) :
    (r.success = false → mapP p function s pos = .ok (FailR pos)) ∧
    (∀ v, r.success = true → r.result = some v →
      mapP p function s pos = .ok (SuccessR r.position (function v))) := by
  constructor
  · intro hf
    unfold mapP
    rw [h]
    dsimp only
    simp [hf]
  · intro v hs hv
    unfold mapP
    rw [h]
    dsimp only
    rw [if_pos hs]
    unfold GetResultM
    rw [hv]

/-- Concrete instance of `c6_map_amended`: mapping over a successful
`letter`. -/
theorem c6_witness :
    mapP letter (fun c => c) ['a'] 0 = .ok (SuccessR 1 'a') :=
  (c6_map_amended Char Char letter (fun c => c) ['a'] 0 (SuccessR 1 'a')
    (by decide)).2 'a' rfl rfl

/-! ### C7 -/

/-- C7: the alternation contract of `operator||` — the first branch's
result when it succeeds; else the second branch's result when that
succeeds; when both fail, a failure at exactly the starting position,
whatever positions the branches reported internally. -/
theorem c7_or_contract (α : Type) (first second : ParserFun α)
    (s : List Char) (pos : Nat) :
    (∀ r, first s pos = .ok r → r.success = true →
      orP first second s pos = .ok r) ∧
    (∀ r r2, first s pos = .ok r → r.success = false →
      second s pos = .ok r2 → r2.success = true →
      orP first second s pos = .ok r2) ∧
    (∀ r r2, first s pos = .ok r → r.success = false →
      second s pos = .ok r2 → r2.success = false →
      orP first second s pos = .ok (FailR pos)) := by
  refine ⟨?_, ?_, ?_⟩
  · intro r h1 hs
    unfold orP
    rw [h1]
    dsimp only
    rw [if_pos hs]
  · intro r r2 h1 hs h2 hs2
    unfold orP
    rw [h1]
    dsimp only
    rw [if_neg (by simp [hs]), h2]
    dsimp only
    rw [if_pos hs2]
  · intro r r2 h1 hs h2 hs2
    unfold orP
    rw [h1]
    dsimp only
    rw [if_neg (by simp [hs]), h2]
    dsimp only
    rw [if_neg (by simp [hs2])]

/-- Concrete instance of `c7_or_contract`: both `Char('a')` and `Char('b')`
fail on `"c"`, and the alternation fails at the starting position 0. -/
theorem c7_witness :
    orP (CharP 'a') (CharP 'b') ['c'] 0 = .ok (FailR 0) :=
  (c7_or_contract Char (CharP 'a') (CharP 'b') ['c'] 0).2.2
    (FailR 0) (FailR 0) (by decide) rfl (by decide) rfl

/-! ### C8 -/

/-- C8: refuted — on `"123"` at position 0 no letter follows the (empty)
whitespace run, yet `word` succeeds with the empty string at position 0
instead of failing: the letter part of `word` is the zero-or-more `letters`
collector, which never fails. -/
theorem c8_word_no_letter_succeeds :
    word ['1', '2', '3'] 0 = .ok (SuccessR 0 []) := by
  decide

/-- C8 amended: from any starting position within the input, `word` always
succeeds: it skips the maximal run of whitespace (ending at `wsEnd`), then
captures the maximal — possibly empty — run of letters (ending at `lEnd`),
and its value is exactly that letter run, the skipped whitespace not
retained; when no letter follows the whitespace the value is the empty
string rather than a failure. -/
theorem c8_word_amended (s : List Char) (pos : Nat) (hpos : pos ≤ s.length) :
    ∃ wsEnd lEnd, classLoop isWsC s pos = .ok wsEnd ∧
      classLoop isLetterC s wsEnd = .ok lEnd ∧
      pos ≤ wsEnd ∧ wsEnd ≤ lEnd ∧
      word s pos = .ok (SuccessR lEnd (substrC s wsEnd (lEnd - wsEnd))) := by
  obtain ⟨wsEnd, h1, hp1, hb1⟩ := classLoop_ok (f := isWsC) (by decide) s pos hpos
  obtain ⟨lEnd, h2, hp2, hb2⟩ :=
    classLoop_ok (f := isLetterC) (by decide) s wsEnd hb1
  refine ⟨wsEnd, lEnd, h1, h2, hp1, hp2, ?_⟩
  have hws : whitespaces s pos = .ok (SuccessR wsEnd (substrC s pos (wsEnd - pos))) := by
    unfold whitespaces
    rw [h1]
  have hlt : letters s wsEnd =
      .ok (SuccessR lEnd (substrC s wsEnd (lEnd - wsEnd))) := by
    unfold letters
    rw [h2]
  have hpair : thenPairP whitespaces letters s pos =
      .ok (SuccessR lEnd
        (substrC s pos (wsEnd - pos), substrC s wsEnd (lEnd - wsEnd))) := by
    unfold thenPairP
    rw [hws]
    simp only [SuccessR_success, SuccessR_position, if_true]
    rw [hlt]
    simp only [SuccessR_success, GetResultM_SuccessR, SuccessR_position, if_true]
  unfold word mapP
  rw [hpair]
  simp only [SuccessR_success, GetResultM_SuccessR, SuccessR_position, if_true]

/-- Concrete instance of `c8_word_amended`: `word` on `" ab"`. -/
theorem c8_witness :
    ∃ wsEnd lEnd, classLoop isWsC [' ', 'a', 'b'] 0 = .ok wsEnd ∧
      classLoop isLetterC [' ', 'a', 'b'] wsEnd = .ok lEnd ∧
      0 ≤ wsEnd ∧ wsEnd ≤ lEnd ∧
      word [' ', 'a', 'b'] 0 =
        .ok (SuccessR lEnd (substrC [' ', 'a', 'b'] wsEnd (lEnd - wsEnd))) :=
  c8_word_amended [' ', 'a', 'b'] 0 (by decide)

/-! ### C10 -/

/-- C10: `Not(P)` invoked at position `length(s)` when `P` fails there
succeeds at position `length(s) + 1`, one past the end of the input. -/
theorem c10_not_past_end (α : Type) (p : ParserFun α) (s : List Char)
    (r : PRes α) (h : p s s.length = .ok r) (hf : r.success = false) :
    NotP p s s.length = .ok (SuccessR (s.length + 1) VoidR.mk) ∧
    s.length < s.length + 1 := by
  constructor
  · unfold NotP
    rw [h]
    dsimp only
    simp [hf]
  · omega

/-- Concrete instance of `c10_not_past_end`: `Not(any)` on the empty string
at position 0 succeeds at position 1. -/
theorem c10_witness :
    NotP any [] 0 = .ok (SuccessR 1 VoidR.mk) ∧ (0 : Nat) < 1 :=
  c10_not_past_end Char any [] (FailR 0) rfl rfl

/-! ### C9 -/

/-- Monotonic consumption: a successful invocation never reports a
position before the one at which it started. -/
def Mono (p : ParserFun α) : Prop :=
  ∀ s pos r, p s pos = .ok r → r.success = true → pos ≤ r.position

/-- Monotonic consumption for the fuel-indexed repetition combinators. -/
def MonoFuel (pf : List Char → Nat → Option (Res β)) : Prop :=
  ∀ s pos r, pf s pos = some (.ok r) → r.success = true → pos ≤ r.position

theorem mono_any : Mono any := by
  intro s pos r h hs
  unfold any at h
  split at h
  · simp only [Except.ok.injEq] at h
    subst h
    simp only [SuccessR_position]
    omega
  · simp only [Except.ok.injEq] at h
    subst h
    simp at hs

theorem mono_classChar (g : Char → Bool) :
    Mono (fun s pos =>
      match charAt s pos with
      | .error e => .error e
      | .ok c => if g c then .ok (SuccessR (pos + 1) c) else .ok (FailR pos)) := by
  intro s pos r h hs
  dsimp only at h
  cases hc : charAt s pos with
  | error e =>
    rw [hc] at h
    exact absurd h (by simp)
  | ok c =>
    rw [hc] at h
    dsimp only at h
    split at h
    · simp only [Except.ok.injEq] at h
      subst h
      simp only [SuccessR_position]
      omega
    · simp only [Except.ok.injEq] at h
      subst h
      simp at hs

theorem mono_letter : Mono letter := mono_classChar isLetterC

theorem mono_digit : Mono digit := mono_classChar isDigitC

theorem mono_whitespace : Mono whitespace := mono_classChar isWsC

theorem mono_alphanumeric : Mono alphanumeric := mono_classChar isAlnumC

theorem mono_CharP (character : Char) : Mono (CharP character) := by
  intro s pos r h hs
  unfold CharP at h
  cases hc : charAt s pos with
  | error e =>
    rw [hc] at h
    exact absurd h (by simp)
  | ok c =>
    rw [hc] at h
    dsimp only at h
    split at h
    · simp only [Except.ok.injEq] at h
      subst h
      simp only [SuccessR_position]
      omega
    · simp only [Except.ok.injEq] at h
      subst h
      simp at hs

theorem mono_StringP (pattern : List Char) : Mono (StringP pattern) := by
  intro s pos r h hs
  unfold StringP at h
  cases hl : stringLoop s pos pattern 0 with
  | error e =>
    rw [hl] at h
    exact absurd h (by simp)
  | ok b =>
    rw [hl] at h
    cases b
    · dsimp only at h
      simp only [Except.ok.injEq] at h
      subst h
      simp at hs
    · dsimp only at h
      simp only [Except.ok.injEq] at h
      subst h
      simp only [SuccessR_position]
      omega

theorem mono_classRun (f : Char → Bool) :
    Mono (fun s pos =>
      match classLoop f s pos with
      | .error e => .error e
      | .ok position => .ok (SuccessR position (substrC s pos (position - pos)))) := by
  intro s pos r h hs
  dsimp only at h
  cases hc : classLoop f s pos with
  | error e =>
    rw [hc] at h
    exact absurd h (by simp)
  | ok e =>
    rw [hc] at h
    dsimp only at h
    simp only [Except.ok.injEq] at h
    subst h
    simpa using classLoop_le hc

theorem mono_whitespaces : Mono whitespaces := mono_classRun isWsC

theorem mono_letters : Mono letters := mono_classRun isLetterC

theorem mono_digits : Mono digits := mono_classRun isDigitC

theorem mono_alphanumerics : Mono alphanumerics := mono_classRun isAlnumC

theorem mono_AnyOfC (characters : List Char) : Mono (AnyOfC characters) := by
  intro s pos r h hs
  unfold AnyOfC at h
  split at h
  · cases hf : (characters.find? (fun ch => s.get _ == ch)) with
    | none =>
      rw [hf] at h
      simp only [Except.ok.injEq] at h
      subst h
      simp at hs
    | some ch =>
      rw [hf] at h
      simp only [Except.ok.injEq] at h
      subst h
      simp only [SuccessR_position]
      omega
  · simp only [Except.ok.injEq] at h
    subst h
    simp at hs

theorem mono_integer : Mono integer := by
  intro s pos r h hs
  unfold integer at h
  cases h0 : charAt s pos with
  | error e =>
    rw [h0] at h
    exact absurd h (by simp)
  | ok c =>
    rw [h0] at h
    dsimp only at h
    have hple : pos ≤ (if c = '-' then pos + 1 else pos) := by
      split <;> omega
    cases h1 : charAt s (if c = '-' then pos + 1 else pos) with
    | error e =>
      rw [h1] at h
      exact absurd h (by simp)
    | ok c1 =>
      rw [h1] at h
      dsimp only at h
      cases h2 : charAt s ((if c = '-' then pos + 1 else pos) + 1) with
      | error e =>
        rw [h2] at h
        exact absurd h (by simp)
      | ok c2 =>
        rw [h2] at h
        dsimp only at h
        split at h
        · simp only [Except.ok.injEq] at h
          subst h
          simp at hs
        · cases h3 : classLoop isDigitC s (if c = '-' then pos + 1 else pos) with
          | error e =>
            rw [h3] at h
            exact absurd h (by simp)
          | ok endPos =>
            rw [h3] at h
            dsimp only at h
            cases h4 : stoiM (substrC s pos (endPos - pos)) with
            | error e =>
              rw [h4] at h
              exact absurd h (by simp)
            | ok v =>
              rw [h4] at h
              dsimp only at h
              simp only [Except.ok.injEq] at h
              subst h
              simp only [SuccessR_position]
              have := classLoop_le h3
              omega

theorem mono_mapP {α β : Type} {p : ParserFun α} (f : α → β) (hp : Mono p) :
    Mono (mapP p f) := by
  intro s pos r h hs
  unfold mapP at h
  cases hr : p s pos with
  | error e =>
    rw [hr] at h
    exact absurd h (by simp)
  | ok r0 =>
    rw [hr] at h
    dsimp only at h
    split at h
    · rename_i hs0
      cases hv : GetResultM r0 with
      | error e =>
        rw [hv] at h
        exact absurd h (by simp)
      | ok v =>
        rw [hv] at h
        dsimp only at h
        simp only [Except.ok.injEq] at h
        subst h
        simpa using hp s pos r0 hr hs0
    · simp only [Except.ok.injEq] at h
      subst h
      simp at hs

theorem mono_discardP {α : Type} {p : ParserFun α} (hp : Mono p) :
    Mono (discardP p) := by
  intro s pos r h hs
  unfold discardP at h
  cases hr : p s pos with
  | error e =>
    rw [hr] at h
    exact absurd h (by simp)
  | ok r0 =>
    rw [hr] at h
    dsimp only at h
    split at h
    · rename_i hs0
      simp only [Except.ok.injEq] at h
      subst h
      simpa using hp s pos r0 hr hs0
    · simp only [Except.ok.injEq] at h
      subst h
      simp at hs

theorem mono_thenPairP {α β : Type} {p : ParserFun α} {q : ParserFun β}
    (hp : Mono p) (hq : Mono q) : Mono (thenPairP p q) := by
  intro s pos r h hs
  unfold thenPairP at h
  cases h1 : p s pos with
  | error e =>
    rw [h1] at h
    exact absurd h (by simp)
  | ok fr =>
    rw [h1] at h
    dsimp only at h
    split at h
    · rename_i hfs
      cases h2 : q s fr.position with
      | error e =>
        rw [h2] at h
        exact absurd h (by simp)
      | ok sr =>
        rw [h2] at h
        dsimp only at h
        split at h
        · rename_i hss
          cases hva : GetResultM fr with
          | error e =>
            rw [hva] at h
            exact absurd h (by simp)
          | ok a =>
            cases hvb : GetResultM sr with
            | error e =>
              rw [hva, hvb] at h
              exact absurd h (by simp)
            | ok b =>
              rw [hva, hvb] at h
              dsimp only at h
              simp only [Except.ok.injEq] at h
              subst h
              simp only [SuccessR_position]
              exact le_trans (hp s pos fr h1 hfs) (hq s fr.position sr h2 hss)
        · simp only [Except.ok.injEq] at h
          subst h
          simp at hs
    · simp only [Except.ok.injEq] at h
      subst h
      simp at hs

theorem mono_thenKeepFirstP {α : Type} {p : ParserFun α} {q : ParserFun VoidR}
    (hp : Mono p) (hq : Mono q) : Mono (thenKeepFirstP p q) := by
  intro s pos r h hs
  unfold thenKeepFirstP at h
  cases h1 : p s pos with
  | error e =>
    rw [h1] at h
    exact absurd h (by simp)
  | ok fr =>
    rw [h1] at h
    dsimp only at h
    split at h
    · rename_i hfs
      cases h2 : q s fr.position with
      | error e =>
        rw [h2] at h
        exact absurd h (by simp)
      | ok sr =>
        rw [h2] at h
        dsimp only at h
        split at h
        · rename_i hss
          cases hva : GetResultM fr with
          | error e =>
            rw [hva] at h
            exact absurd h (by simp)
          | ok a =>
            rw [hva] at h
            dsimp only at h
            simp only [Except.ok.injEq] at h
            subst h
            simp only [SuccessR_position]
            exact le_trans (hp s pos fr h1 hfs) (hq s fr.position sr h2 hss)
        · simp only [Except.ok.injEq] at h
          subst h
          simp at hs
    · simp only [Except.ok.injEq] at h
      subst h
      simp at hs

theorem mono_thenKeepSecondP {α : Type} {p : ParserFun VoidR} {q : ParserFun α}
    (hp : Mono p) (hq : Mono q) : Mono (thenKeepSecondP p q) := by
  intro s pos r h hs
  unfold thenKeepSecondP at h
  cases h1 : p s pos with
  | error e =>
    rw [h1] at h
    exact absurd h (by simp)
  | ok fr =>
    rw [h1] at h
    dsimp only at h
    split at h
    · rename_i hfs
      cases h2 : q s fr.position with
      | error e =>
        rw [h2] at h
        exact absurd h (by simp)
      | ok sr =>
        rw [h2] at h
        dsimp only at h
        split at h
        · rename_i hss
          cases hvb : GetResultM sr with
          | error e =>
            rw [hvb] at h
            exact absurd h (by simp)
          | ok b =>
            rw [hvb] at h
            dsimp only at h
            simp only [Except.ok.injEq] at h
            subst h
            simp only [SuccessR_position]
            exact le_trans (hp s pos fr h1 hfs) (hq s fr.position sr h2 hss)
        · simp only [Except.ok.injEq] at h
          subst h
          simp at hs
    · simp only [Except.ok.injEq] at h
      subst h
      simp at hs

theorem mono_thenVoidP {p q : ParserFun VoidR}
    (hp : Mono p) (hq : Mono q) : Mono (thenVoidP p q) := by
  intro s pos r h hs
  unfold thenVoidP at h
  cases h1 : p s pos with
  | error e =>
    rw [h1] at h
    exact absurd h (by simp)
  | ok fr =>
    rw [h1] at h
    dsimp only at h
    split at h
    · rename_i hfs
      cases h2 : q s fr.position with
      | error e =>
        rw [h2] at h
        exact absurd h (by simp)
      | ok sr =>
        rw [h2] at h
        dsimp only at h
        split at h
        · rename_i hss
          simp only [Except.ok.injEq] at h
          subst h
          simp only [SuccessR_position]
          exact le_trans (hp s pos fr h1 hfs) (hq s fr.position sr h2 hss)
        · simp only [Except.ok.injEq] at h
          subst h
          simp at hs
    · simp only [Except.ok.injEq] at h
      subst h
      simp at hs

theorem mono_orP {α : Type} {p q : ParserFun α} (hp : Mono p) (hq : Mono q) :
    Mono (orP p q) := by
  intro s pos r h hs
  unfold orP at h
  cases h1 : p s pos with
  | error e =>
    rw [h1] at h
    exact absurd h (by simp)
  | ok r1 =>
    rw [h1] at h
    dsimp only at h
    split at h
    · rename_i hs1
      simp only [Except.ok.injEq] at h
      subst h
      exact hp s pos _ h1 hs1
    · cases h2 : q s pos with
      | error e =>
        rw [h2] at h
        exact absurd h (by simp)
      | ok r2 =>
        rw [h2] at h
        dsimp only at h
        split at h
        · rename_i hs2
          simp only [Except.ok.injEq] at h
          subst h
          exact hq s pos _ h2 hs2
        · simp only [Except.ok.injEq] at h
          subst h
          simp at hs

theorem mono_TryP {α : Type} {p : ParserFun α} (d : α) (hp : Mono p) :
    Mono (TryP p d) := by
  intro s pos r h hs
  unfold TryP at h
  cases h1 : p s pos with
  | error e =>
    rw [h1] at h
    exact absurd h (by simp)
  | ok r1 =>
    rw [h1] at h
    dsimp only at h
    split at h
    · rename_i hs1
      simp only [Except.ok.injEq] at h
      subst h
      exact hp s pos _ h1 hs1
    · simp only [Except.ok.injEq] at h
      subst h
      simp

theorem mono_NotP {α : Type} (p : ParserFun α) : Mono (NotP p) := by
  intro s pos r h hs
  unfold NotP at h
  cases h1 : p s pos with
  | error e =>
    rw [h1] at h
    exact absurd h (by simp)
  | ok r1 =>
    rw [h1] at h
    dsimp only at h
    split at h
    · simp only [Except.ok.injEq] at h
      subst h
      simp at hs
    · simp only [Except.ok.injEq] at h
      subst h
      simp only [SuccessR_position]
      omega

theorem mono_anyOfLoop {α : Type} (s : List Char) (pos : Nat) :
    ∀ (ps : List (ParserFun α)), (∀ p ∈ ps, Mono p) →
      ∀ r, anyOfLoop s pos ps = .ok r → r.success = true → pos ≤ r.position := by
  intro ps
  induction ps with
  | nil =>
    intro _ r h hs
    unfold anyOfLoop at h
    simp only [Except.ok.injEq] at h
    subst h
    simp at hs
  | cons p rest ih =>
    intro hall r h hs
    unfold anyOfLoop at h
    cases hr : p s pos with
    | error e =>
      rw [hr] at h
      exact absurd h (by simp)
    | ok r0 =>
      rw [hr] at h
      dsimp only at h
      split at h
      · rename_i hs0
        simp only [Except.ok.injEq] at h
        subst h
        exact hall p (by simp) s pos r0 hr hs0
      · exact ih (fun q hq => hall q (by simp [hq])) r h hs

theorem mono_AnyOfL {α : Type} (ps : List (ParserFun α))
    (hall : ∀ p ∈ ps, Mono p) : Mono (AnyOfL ps) := by
  intro s pos r h hs
  unfold AnyOfL at h
  split at h
  · exact mono_anyOfLoop s pos ps hall r h hs
  · simp only [Except.ok.injEq] at h
    subst h
    simp at hs

theorem mono_manyLoop {α : Type} {p : ParserFun α} (hp : Mono p) (s : List Char) :
    ∀ (fuel pos : Nat) (acc : List α) (r : PRes (List α)),
      manyLoop p s fuel pos acc = some (.ok r) → pos ≤ r.position := by
  intro fuel
  induction fuel with
  | zero =>
    intro pos acc r h
    exact absurd h (by simp [manyLoop])
  | succ n ih =>
    intro pos acc r h
    unfold manyLoop at h
    split at h
    · simp only [Option.some.injEq, Except.ok.injEq] at h
      subst h
      simp
    · cases hr : p s pos with
      | error e =>
        rw [hr] at h
        exact absurd h (by simp)
      | ok tr =>
        rw [hr] at h
        dsimp only at h
        split at h
        · rename_i hts
          cases hv : GetResultM tr with
          | error e =>
            rw [hv] at h
            exact absurd h (by simp)
          | ok v =>
            rw [hv] at h
            dsimp only at h
            exact le_trans (hp s pos tr hr hts) (ih tr.position (acc ++ [v]) r h)
        · simp only [Option.some.injEq, Except.ok.injEq] at h
          subst h
          simp

theorem mono_manyFuel {α : Type} (p : ParserFun α) (fuel : Nat) (hp : Mono p) :
    MonoFuel (manyFuel fuel p) := by
  intro s pos r h _
  exact mono_manyLoop hp s fuel pos [] r h

theorem mono_atLeastFuel {α : Type} (p : ParserFun α) (fuel count : Nat)
    (hp : Mono p) : MonoFuel (atLeastFuel fuel count p) := by
  intro s pos r h hs
  unfold atLeastFuel at h
  cases hm : manyFuel fuel p s pos with
  | none =>
    rw [hm] at h
    exact absurd h (by simp)
  | some res =>
    rw [hm] at h
    cases res with
    | error e =>
      exact absurd h (by simp)
    | ok ms =>
      dsimp only at h
      cases hv : GetResultM ms with
      | error e =>
        rw [hv] at h
        exact absurd h (by simp)
      | ok result =>
        rw [hv] at h
        dsimp only at h
        split at h
        · simp only [Option.some.injEq, Except.ok.injEq] at h
          subst h
          simpa using mono_manyLoop hp s fuel pos [] ms hm
        · simp only [Option.some.injEq, Except.ok.injEq] at h
          subst h
          simp at hs

theorem mono_betweenFuel {α : Type} (p : ParserFun α) (fuel mn mx : Nat)
    (hp : Mono p) : MonoFuel (betweenFuel fuel mn mx p) := by
  intro s pos r h hs
  unfold betweenFuel at h
  cases hm : manyFuel fuel p s pos with
  | none =>
    rw [hm] at h
    exact absurd h (by simp)
  | some res =>
    rw [hm] at h
    cases res with
    | error e =>
      exact absurd h (by simp)
    | ok ms =>
      dsimp only at h
      cases hv : GetResultM ms with
      | error e =>
        rw [hv] at h
        exact absurd h (by simp)
      | ok result =>
        rw [hv] at h
        dsimp only at h
        split at h
        · simp only [Option.some.injEq, Except.ok.injEq] at h
          subst h
          simpa using mono_manyLoop hp s fuel pos [] ms hm
        · simp only [Option.some.injEq, Except.ok.injEq] at h
          subst h
          simp at hs

theorem mono_word : Mono word :=
  mono_mapP (fun pair : List Char × List Char => pair.2)
    (mono_thenPairP mono_whitespaces mono_letters)

/-- C9: monotonic consumption — every primitive leaf parser of the library
returns, on success, a position at or after its starting position, and
every combinator (map, discard, the four sequence forms, alternation, Try,
Not, both AnyOf forms, Many, AtLeast, Between) preserves this property
given sub-parsers that satisfy it; zero-width success is allowed. -/
theorem c9_monotonic_consumption :
    Mono any ∧ Mono letter ∧ Mono digit ∧ Mono whitespace ∧
    Mono alphanumeric ∧ (∀ c, Mono (CharP c)) ∧
    (∀ pattern, Mono (StringP pattern)) ∧
    Mono whitespaces ∧ Mono letters ∧ Mono digits ∧ Mono alphanumerics ∧
    Mono word ∧ Mono integer ∧
    (∀ characters, Mono (AnyOfC characters)) ∧
    (∀ (α β : Type) (p : ParserFun α) (f : α → β), Mono p → Mono (mapP p f)) ∧
    (∀ (α : Type) (p : ParserFun α), Mono p → Mono (discardP p)) ∧
    (∀ (α β : Type) (p : ParserFun α) (q : ParserFun β),
      Mono p → Mono q → Mono (thenPairP p q)) ∧
    (∀ (α : Type) (p : ParserFun α) (q : ParserFun VoidR),
      Mono p → Mono q → Mono (thenKeepFirstP p q)) ∧
    (∀ (α : Type) (p : ParserFun VoidR) (q : ParserFun α),
      Mono p → Mono q → Mono (thenKeepSecondP p q)) ∧
    (∀ (p q : ParserFun VoidR), Mono p → Mono q → Mono (thenVoidP p q)) ∧
    (∀ (α : Type) (p q : ParserFun α), Mono p → Mono q → Mono (orP p q)) ∧
    (∀ (α : Type) (p : ParserFun α) (d : α), Mono p → Mono (TryP p d)) ∧
    (∀ (α : Type) (p : ParserFun α), Mono (NotP p)) ∧
    (∀ (α : Type) (ps : List (ParserFun α)),
      (∀ p ∈ ps, Mono p) → Mono (AnyOfL ps)) ∧
    (∀ (α : Type) (p : ParserFun α) (fuel : Nat),
      Mono p → MonoFuel (manyFuel fuel p)) ∧
    (∀ (α : Type) (p : ParserFun α) (fuel count : Nat),
      Mono p → MonoFuel (atLeastFuel fuel count p)) ∧
    (∀ (α : Type) (p : ParserFun α) (fuel mn mx : Nat),
      Mono p → MonoFuel (betweenFuel fuel mn mx p)) :=
  ⟨mono_any, mono_letter, mono_digit, mono_whitespace, mono_alphanumeric,
    mono_CharP, mono_StringP, mono_whitespaces, mono_letters, mono_digits,
    mono_alphanumerics, mono_word, mono_integer, mono_AnyOfC,
    fun _ _ _ f hp => mono_mapP f hp,
    fun _ _ hp => mono_discardP hp,
    fun _ _ _ _ hp hq => mono_thenPairP hp hq,
    fun _ _ _ hp hq => mono_thenKeepFirstP hp hq,
    fun _ _ _ hp hq => mono_thenKeepSecondP hp hq,
    fun _ _ hp hq => mono_thenVoidP hp hq,
    fun _ _ _ hp hq => mono_orP hp hq,
    fun _ _ d hp => mono_TryP d hp,
    fun _ p => mono_NotP p,
    fun _ ps hall => mono_AnyOfL ps hall,
    fun _ p fuel hp => mono_manyFuel p fuel hp,
    fun _ p fuel count hp => mono_atLeastFuel p fuel count hp,
    fun _ p fuel mn mx hp => mono_betweenFuel p fuel mn mx hp⟩

/-- Concrete instance of `c9_monotonic_consumption`: a successful `letter`
at position 0 ends at position 1 ≥ 0. -/
theorem c9_witness : (0 : Nat) ≤ 1 :=
  c9_monotonic_consumption.2.1 ['a'] 0 (SuccessR 1 'a') (by decide) rfl

end PrsEmbed
